import Mathlib

/- Verification model of the via stitching core (stitcher.py).

   Modelling conventions:
   * board coordinates are integers (internal length units, nanometres);
   * Python float arithmetic applied to exact integer inputs is modelled
     by exact rational arithmetic, and the Python int() conversion is
     truncation toward zero (truncQ below);
   * numpy uint8 arrays wrap modulo 256 on in-place addition; the model
     keeps that wrap explicit where the source adds into a uint8 array;
   * bitmaps are total functions from cell coordinates to values; cells
     outside the extent hold 0 and the drawing operations never write
     them, mirroring numpy arrays that have no out-of-extent cells. -/

set_option maxRecDepth 10000

namespace ViaStitch

/-- Truncation toward zero of a rational number: the behaviour of the
Python int() conversion applied to an exact quotient. -/
def truncQ (q : ℚ) : ℤ := q.num.tdiv q.den

/-- Bounding box: origin point plus size, in integer board units. -/
structure Box where
  pos : ℤ × ℤ
  size : ℤ × ℤ
deriving DecidableEq

/-- A dense two dimensional grid of integer cells modelling a numpy
array of shape (height, width).  The data function is total; cells at
or beyond the extent hold junk that no operation ever writes. -/
structure Bitmap where
  width : ℕ
  height : ℕ
  data : ℕ → ℕ → ℤ

/-- The all-zero bitmap of the given extent (np.zeros). -/
def zeroBm (w h : ℕ) : Bitmap := ⟨w, h, fun _ _ => 0⟩

/- Python computes these quotients in float arithmetic on exact
   integer operands and converts with int(); the model computes the
   same value as the truncated exact quotient, Int.tdiv. -/

/-- Bitmap width derived from a bounding box at a resolution:
int(bbox.size.x / resolution) + 1. -/
def bmW (bbox : Box) (res : ℤ) : ℕ := (Int.tdiv bbox.size.1 res).toNat + 1

/-- Bitmap height derived from a bounding box at a resolution:
int(bbox.size.y / resolution) + 1. -/
def bmH (bbox : Box) (res : ℤ) : ℕ := (Int.tdiv bbox.size.2 res).toNat + 1

/-- Pixel coordinate of board coordinate v relative to origin o:
the source expression int((v - o) / resolution). -/
def pixOf (v o res : ℤ) : ℤ := Int.tdiv (v - o) res

/-- Insertion of an integer into a sorted list, ascending. -/
def insertSorted (a : ℤ) : List ℤ → List ℤ
  | [] => [a]
  | b :: l => if a ≤ b then a :: b :: l else b :: insertSorted a l

/-- Ascending sort of an integer list (the effect of list.sort()). -/
def sortInts : List ℤ → List ℤ
  | [] => []
  | a :: l => insertSorted a (sortInts l)

/-- The cyclically consecutive vertex pairs of a polygon: the edges
(points[i], points[(i+1) % len]) of the source. -/
def edges (points : List (ℤ × ℤ)) : List ((ℤ × ℤ) × (ℤ × ℤ)) :=
  points.zip (points.rotate 1)

/-- The scanline intersection int(x1 + (y - y1) * (x2 - x1) / (y2 - y1))
of the source, written over the common denominator y2 - y1:
x1 + (y - y1)(x2 - x1)/(y2 - y1) equals
(x1 (y2 - y1) + (y - y1)(x2 - x1)) / (y2 - y1) as an exact rational,
and truncation toward zero of that quotient is Int.tdiv. -/
def interX (x1 y1 x2 y2 y : ℤ) : ℤ :=
  Int.tdiv (x1 * (y2 - y1) + (y - y1) * (x2 - x1)) (y2 - y1)

/-- Scanline x intersections of the polygon edges with pixel row y,
exactly as the source computes them: horizontal edges are skipped, an
edge is skipped when y < min(y1, y2) or y >= max(y1, y2), and the
intersection is int(x1 + (y - y1) * (x2 - x1) / (y2 - y1)). -/
def rowXs (points : List (ℤ × ℤ)) (y : ℤ) : List ℤ :=
  (edges points).filterMap fun e =>
    if e.1.2 = e.2.2 then none
    else if y < min e.1.2 e.2.2 ∨ max e.1.2 e.2.2 ≤ y then none
    else some (interX e.1.1 e.1.2 e.2.1 e.2.2 y)

/-- Consecutive even/odd indexed pairs of a list: the iteration
for i in range(0, len - 1, 2) over (lst[i], lst[i+1]). -/
def spanPairs : List ℤ → List (ℤ × ℤ)
  | a :: b :: l => (a, b) :: spanPairs l
  | _ => []

/-- How many filled spans of row y cover column x, spans being clamped
to [0, w-1] as in the source (x1 = max(0, ...), x2 = min(width-1, ...),
filled only when x1 <= x2). -/
def rowHits (points : List (ℤ × ℤ)) (w : ℕ) (y : ℤ) (x : ℕ) : ℕ :=
  (spanPairs (sortInts (rowXs points y))).countP fun s =>
    decide (max 0 s.1 ≤ (x : ℤ) ∧ (x : ℤ) ≤ min ((w : ℤ) - 1) s.2)

/-- Vertex list mapped to pixel space. -/
def polyPoints (nodes : List (ℤ × ℤ)) (bbox : Box) (res : ℤ) : List (ℤ × ℤ) :=
  nodes.map fun n => (pixOf n.1 bbox.pos.1 res, pixOf n.2 bbox.pos.2 res)

/-- Scanline polygon fill of the source (rasterize_polygon): a no-op
for fewer than 3 vertices; otherwise every covered cell of every row
receives value once per covering span, stored modulo 256 because every
caller passes a uint8 array. -/
def rasterize_polygon (b : Bitmap) (nodes : List (ℤ × ℤ)) (bbox : Box) (res : ℤ)
    (value : ℤ) : Bitmap :=
  if nodes.length < 3 then b
  else
    { b with data := fun y x =>
        let c := rowHits (polyPoints nodes bbox res) b.width (y : ℤ) x
        if y < b.height ∧ 0 < c then (b.data y x + value * (c : ℤ)) % 256 else b.data y x }

/- Board data model.  Attribute probing of the source (hasattr checks on
   padstack, filled_polygons, outline, holes) is modelled by Option
   fields and by always-present typed fields: an absent attribute is
   None / the empty list. -/

/-- One filled polygon of a zone: an outline ring plus hole rings. -/
structure Poly where
  outline : List (ℤ × ℤ)
  holes : List (List (ℤ × ℤ))
deriving DecidableEq

/-- A copper zone.  The net field holds the net name when the zone has
a truthy net object; filled_polygons maps layer ids to polygon lists. -/
structure Zone where
  id : String
  net : Option String
  filled : Bool
  layers : List ℤ
  filled_polygons : List (ℤ × List Poly)
  bbox : Box
deriving DecidableEq

/-- A pad.  copperSizes models padstack.copper_layers: none when the
padstack or its copper_layers attribute is missing, and each entry is
the size of one copper layer when that layer has a size. -/
structure Pad where
  net : Option String
  position : ℤ × ℤ
  copperSizes : Option (List (Option (ℤ × ℤ)))
deriving DecidableEq

/-- An existing via on the board. -/
structure BoardVia where
  net : Option String
  position : ℤ × ℤ
  diameter : ℤ
deriving DecidableEq

/-- A track segment. -/
structure Track where
  net : Option String
  start : ℤ × ℤ
  stop : ℤ × ℤ
  width : ℤ
deriving DecidableEq

/-- The board collaborator data consumed by the stitcher. -/
structure Board where
  nets : List String
  pads : List Pad
  vias : List BoardVia
  tracks : List Track
  zones : List Zone
deriving DecidableEq

/-- Filled circle stamp (draw_circle): sets every in-extent cell whose
squared distance from (cx, cy) is at most radius squared to 1, via a
boolean mask over the whole array, hence silently clipped. -/
def draw_circle (b : Bitmap) (cx cy r : ℤ) : Bitmap :=
  { b with data := fun y x =>
      if y < b.height ∧ x < b.width ∧
          ((x : ℤ) - cx) ^ 2 + ((y : ℤ) - cy) ^ 2 ≤ r ^ 2 then 1 else b.data y x }

/-- One step of the Bresenham walk of draw_line, fuel bounded; the
fuel |x2-x1| + |y2-y1| + 1 covers every step the source loop performs. -/
def bresAux (x2 y2 sx sy dx dy : ℤ) : ℕ → ℤ → ℤ → ℤ → List (ℤ × ℤ)
  | 0, _, _, _ => []
  | f + 1, x1, y1, err =>
    (x1, y1) ::
      (if x1 = x2 ∧ y1 = y2 then []
       else
        let e2 := 2 * err
        let err1 := if e2 > -dy then err - dy else err
        let x1n := if e2 > -dy then x1 + sx else x1
        let err2 := if e2 < dx then err1 + dx else err1
        let y1n := if e2 < dx then y1 + sy else y1
        bresAux x2 y2 sx sy dx dy f x1n y1n err2)

/-- The integer points visited by the Bresenham walk of draw_line. -/
def bresPoints (x1 y1 x2 y2 : ℤ) : List (ℤ × ℤ) :=
  let dx := |x2 - x1|
  let dy := |y2 - y1|
  let sx : ℤ := if x1 < x2 then 1 else -1
  let sy : ℤ := if y1 < y2 then 1 else -1
  bresAux x2 y2 sx sy dx dy (dx + dy + 1).toNat x1 y1 (dx - dy)

/-- Thick line stamp (draw_line): a filled circle of radius
width_px // 2 at every Bresenham step. -/
def draw_line (b : Bitmap) (x1 y1 x2 y2 wpx : ℤ) : Bitmap :=
  (bresPoints x1 y1 x2 y2).foldl (fun bm p => draw_circle bm p.1 p.2 (Int.fdiv wpx 2)) b

/-- The pad footprint radius in board units as the source computes it:
it starts from the 1 mm default and replaces it only by a strictly
larger copper layer dimension. -/
def padRadiusNm (p : Pad) : ℤ :=
  match p.copperSizes with
  | none => 1000000
  | some sizes =>
    sizes.foldl
      (fun r s =>
        match s with
        | some sz => if max sz.1 sz.2 > r then max sz.1 sz.2 else r
        | none => r)
      1000000

/-- The pad stamp radius in pixels: int(radius_nm / resolution / 2),
the truncated exact quotient radius_nm / (2 resolution). -/
def padRadiusPx (p : Pad) (res : ℤ) : ℤ :=
  Int.tdiv (padRadiusNm p) (2 * res)

/-- The obstacle bitmap after the pad, via and track sections of
rasterize_obstacles, which do not depend on the ignore set. -/
def obstacleBase (board : Board) (net_name : String) (bbox : Box) (res : ℤ) : Bitmap :=
  let b0 := zeroBm (bmW bbox res) (bmH bbox res)
  let b1 := board.pads.foldl
    (fun bm p =>
      if p.net = some net_name then bm
      else draw_circle bm (pixOf p.position.1 bbox.pos.1 res) (pixOf p.position.2 bbox.pos.2 res)
        (padRadiusPx p res))
    b0
  let b2 := board.vias.foldl
    (fun bm v =>
      if v.net = some net_name then bm
      else draw_circle bm (pixOf v.position.1 bbox.pos.1 res) (pixOf v.position.2 bbox.pos.2 res)
        (Int.tdiv v.diameter (2 * res)))
    b1
  board.tracks.foldl
    (fun bm t =>
      if t.net = some net_name then bm
      else draw_line bm (pixOf t.start.1 bbox.pos.1 res) (pixOf t.start.2 bbox.pos.2 res)
        (pixOf t.stop.1 bbox.pos.1 res) (pixOf t.stop.2 bbox.pos.2 res)
        (Int.tdiv t.width res))
    b2

/-- Whether the zones section of rasterize_obstacles keeps a zone: the
zone is skipped when it belongs to the target net, is not filled, or
its id is in the ignore set. -/
def obstacleZoneKeep (net_name : String) (ignored : List String) (z : Zone) : Bool :=
  !(decide (z.net = some net_name)) && z.filled && !(ignored.contains z.id)

/-- The outline vertex lists rasterized by the zones section of
rasterize_obstacles, in source order (holes are not subtracted there). -/
def zonePolys (board : Board) (net_name : String) (ignored : List String) :
    List (List (ℤ × ℤ)) :=
  (board.zones.filter (obstacleZoneKeep net_name ignored)).flatMap fun z =>
    z.filled_polygons.flatMap fun lp => lp.2.map fun p => p.outline

/-- The full obstacle bitmap of rasterize_obstacles. -/
def rasterize_obstacles (board : Board) (net_name : String) (bbox : Box) (res : ℤ)
    (ignored : List String) : Bitmap :=
  (zonePolys board net_name ignored).foldl
    (fun bm nodes => rasterize_polygon bm nodes bbox res 1)
    (obstacleBase board net_name bbox res)

/- Layer coverage accumulator (rasterize_zones_by_layer). -/

/-- Hole subtraction: rasterize the hole into a scratch zero bitmap and
reset to 0 every cell the scratch marks (np.where(temp > 0, 0, m)). -/
def subtractHole (m : Bitmap) (hole : List (ℤ × ℤ)) (bbox : Box) (res : ℤ) : Bitmap :=
  let temp := rasterize_polygon (zeroBm m.width m.height) hole bbox res 1
  { m with data := fun y x => if 0 < temp.data y x then 0 else m.data y x }

/-- One zone polygon applied to a layer bitmap: outline rasterized with
value 1, then each hole subtracted. -/
def applyPoly (m : Bitmap) (p : Poly) (bbox : Box) (res : ℤ) : Bitmap :=
  p.holes.foldl (fun bm hole => subtractHole bm hole bbox res)
    (rasterize_polygon m p.outline bbox res 1)

/-- Look up a layer bitmap, creating a zero bitmap on first use. -/
def getLayer (maps : List (ℤ × Bitmap)) (layer : ℤ) (w h : ℕ) : Bitmap :=
  match maps.find? fun lm => lm.1 == layer with
  | some lm => lm.2
  | none => zeroBm w h

/-- Store a layer bitmap, keeping insertion order like a Python dict. -/
def setLayer (maps : List (ℤ × Bitmap)) (layer : ℤ) (bm : Bitmap) : List (ℤ × Bitmap) :=
  if maps.any fun lm => lm.1 == layer then
    maps.map fun lm => if lm.1 == layer then (lm.1, bm) else lm
  else maps ++ [(layer, bm)]

/-- The per-layer bitmaps accumulated over the given zones. -/
def layerMaps (zones : List Zone) (bbox : Box) (res : ℤ) (w h : ℕ) :
    List (ℤ × Bitmap) :=
  zones.foldl
    (fun maps z =>
      z.filled_polygons.foldl
        (fun maps2 lp =>
          if lp.2.isEmpty then maps2
          else
            setLayer maps2 lp.1
              (lp.2.foldl (fun bm p => applyPoly bm p bbox res) (getLayer maps2 lp.1 w h)))
        maps)
    []

/-- The coverage bitmap of rasterize_zones_by_layer: each cell counts
the layers whose bitmap is nonzero there (stored in an int32 array; the
count never comes near the int32 range, so no wrap is modelled). -/
def rasterize_zones_by_layer (zones : List Zone) (bbox : Box) (res : ℤ) : Bitmap :=
  let w := bmW bbox res
  let h := bmH bbox res
  ⟨w, h, fun y x =>
    if y < h ∧ x < w then
      (layerMaps zones bbox res w h).foldl
        (fun a lm => a + if 0 < lm.2.data y x then 1 else 0) 0
    else 0⟩

/- Clearance eroder (apply_clearance). -/

/-- Does pixel (ny, nx), given as integers, lie in the extent and hold
a nonzero value? -/
def cellOk (b : Bitmap) (ny nx : ℤ) : Bool :=
  decide (0 ≤ ny) && decide (ny < (b.height : ℤ)) && decide (0 ≤ nx) &&
    decide (nx < (b.width : ℤ)) && decide (b.data ny.toNat nx.toNat ≠ 0)

/-- Binary erosion with the (2k+1) square structuring element centred
per pixel; outside the extent counts as invalid (border_value = 0). -/
def erodeBm (b : Bitmap) (k : ℕ) : Bitmap :=
  ⟨b.width, b.height, fun y x =>
    if y < b.height ∧ x < b.width ∧
        ((List.range (2 * k + 1)).all fun dy =>
          (List.range (2 * k + 1)).all fun dx =>
            cellOk b ((y : ℤ) + (dy : ℤ) - (k : ℤ)) ((x : ℤ) + (dx : ℤ) - (k : ℤ)))
      then 1 else 0⟩

/-- Clearance application (apply_clearance): clearance_px below 1
returns the input unchanged, otherwise a binary erosion with
clearance_px = int(clearance_nm / resolution). -/
def apply_clearance (b : Bitmap) (clearance_nm res : ℤ) : Bitmap :=
  if Int.tdiv clearance_nm res < 1 then b else erodeBm b (Int.tdiv clearance_nm res).toNat

/- Candidate net listing (get_candidate_nets). -/

/-- Insert a value into a list if it is not already present, modelling
addition to a Python set whose cardinality we later take. -/
def insertNew (l : List ℤ) (v : ℤ) : List ℤ :=
  if l.contains v then l else l ++ [v]

/-- Record the layers of one zone under its net name. -/
def addZoneLayers (acc : List (String × List ℤ)) (name : String) (ls : List ℤ) :
    List (String × List ℤ) :=
  if acc.any fun e => e.1 == name then
    acc.map fun e => if e.1 == name then (e.1, ls.foldl insertNew e.2) else e
  else acc ++ [(name, ls.foldl insertNew [])]

/-- One zone folded into the net-to-layers map, as get_candidate_nets
does: unfilled zones, zones with no net and zones whose net name is
empty are skipped. -/
def nwzStep (acc : List (String × List ℤ)) (z : Zone) : List (String × List ℤ) :=
  if !z.filled then acc
  else
    match z.net with
    | none => acc
    | some name => if name = "" then acc else addZoneLayers acc name z.layers

/-- The map from net name to the distinct layer ids of its filled
zones. -/
def netsWithZones (zones : List Zone) : List (String × List ℤ) :=
  zones.foldl nwzStep []

/-- Ascending insertion for strings. -/
def insertSortedStr (a : String) : List String → List String
  | [] => [a]
  | b :: l => if a ≤ b then a :: b :: l else b :: insertSortedStr a l

/-- Ascending sort for strings (the sorted() of the source). -/
def sortStrs : List String → List String
  | [] => []
  | a :: l => insertSortedStr a (sortStrs l)

/-- get_candidate_nets: names of nets whose filled zones span more than
one distinct layer id, sorted ascending. -/
def get_candidate_nets (board : Board) : List String :=
  sortStrs ((netsWithZones board.zones).filterMap fun e =>
    if 1 < e.2.length then some e.1 else none)

/- Grid sampler and orchestrator (stitch). -/

/-- Fuel bounded unfolding of the loop "while v <= last: visit v;
v += step".  The fuel passed by whileLe suffices for every positive
step, so the loop always exits through its condition. -/
def whileLeAux (last step : ℤ) : ℕ → ℤ → List ℤ
  | 0, _ => []
  | f + 1, v => if v ≤ last then v :: whileLeAux last step f (v + step) else []

/-- The values visited by "while v <= last" starting at v0 with the
given step.  The source loop terminates only for positive steps, which
the clamping in stitch guarantees; that is exactly what the fuel
(last + 1 - v0) covers. -/
def whileLe (v0 last step : ℤ) : List ℤ :=
  whileLeAux last step (last + 1 - v0).toNat v0

/-- A millimetre grid input resolved to board units: the value
int(grid_mm * SCALE), computed as the truncated exact product
(num * SCALE) / den of the rational input. -/
def resolveGrid (grid_mm : ℚ) : ℤ :=
  Int.tdiv (grid_mm.num * 1000000) (grid_mm.den : ℤ)

/-- The resolved grid spacing, clamped: if gx <= 0 then gx becomes
int(1 * SCALE). -/
def clampGrid (grid_mm : ℚ) : ℤ :=
  if resolveGrid grid_mm ≤ 0 then 1000000 else resolveGrid grid_mm

/-- Union of two bounding boxes.  Modelled from the geometry library
collaborator (kipy Box2.merge), per the spec: origin plus size with a
union/merge operation. -/
def mergeBox (a b : Box) : Box :=
  let x1 := min a.pos.1 b.pos.1
  let y1 := min a.pos.2 b.pos.2
  let x2 := max (a.pos.1 + a.size.1) (b.pos.1 + b.size.1)
  let y2 := max (a.pos.2 + a.size.2) (b.pos.2 + b.size.2)
  ⟨(x1, y1), (x2 - x1, y2 - y1)⟩

/-- The filled zones of the named net, as stitch collects them. -/
def targetZones (board : Board) (net_name : String) : List Zone :=
  board.zones.filter fun z => decide (z.net = some net_name) && z.filled

/-- Union bounding box of a zone list, none when the list is empty. -/
def overallBbox (zones : List Zone) : Option Box :=
  zones.foldl
    (fun acc z =>
      match acc with
      | none => some z.bbox
      | some bb => some (mergeBox bb z.bbox))
    none

/-- The validity bitmap before clearance: coverage at least 2 and no
obstacle, stored as 0/1 (the uint8 cast of the boolean array). -/
def validBase (cov obs : Bitmap) : Bitmap :=
  ⟨cov.width, cov.height, fun y x =>
    if y < cov.height ∧ x < cov.width ∧ 2 ≤ cov.data y x ∧ obs.data y x = 0 then 1 else 0⟩

/-- Resolution of one pipeline run: 100000 nm per pixel. -/
def RESOLUTION : ℤ := 100000

/-- Clearance of one pipeline run: 250000 nm. -/
def CLEARANCE : ℤ := 250000

/-- Scale factor from millimetre inputs to board units. -/
def SCALE : ℤ := 1000000

/-- Whether a grid point (x, y) maps into the bitmap extent and lands
on a valid cell. -/
def gridPointOk (vb : Bitmap) (bbox : Box) (x y : ℤ) : Bool :=
  let px := pixOf x bbox.pos.1 RESOLUTION
  let py := pixOf y bbox.pos.2 RESOLUTION
  decide (0 ≤ px) && decide (px < (vb.width : ℤ)) && decide (0 ≤ py) &&
    decide (py < (vb.height : ℤ)) && decide (0 < vb.data py.toNat px.toNat)

/-- The accepted grid points of the sampling loops, in visit order:
columns step gx from the box left edge, rows step gy from the box top
edge, odd columns offset by gy // 2 when stagger is set. -/
def gridCandidates (vb : Bitmap) (bbox : Box) (gx gy : ℤ) (stagger : Bool) :
    List (ℤ × ℤ) :=
  let endX := bbox.pos.1 + bbox.size.1
  let endY := bbox.pos.2 + bbox.size.2
  ((whileLe bbox.pos.1 endX gx).enum).flatMap fun rx =>
    let offY := if stagger && decide (rx.1 % 2 = 1) then Int.fdiv gy 2 else 0
    ((whileLe (bbox.pos.2 + offY) endY gy).filter fun y => gridPointOk vb bbox rx.2 y).map
      fun y => (rx.2, y)

/-- The board mutating calls stitch can issue, in issue order. -/
inductive Action where
  | beginCommit : Action
  | createItems : ℕ → Action
  | pushCommit : Action
  | clearSelection : Action
  | addToSelection : Action
  | refillZones : Action
deriving DecidableEq

/-- The calls executed inside the protected commit region.  When the
board rejects the commit (commitRaises), push_commit raises after
begin_commit and create_items have run, the exception is caught, and
the selection calls of the same try block are skipped. -/
def commitActions (n : ℕ) (commitRaises : Bool) : List Action :=
  if n ≠ 0 then
    if commitRaises then [Action.beginCommit, Action.createItems n]
    else
      [Action.beginCommit, Action.createItems n, Action.pushCommit,
        Action.clearSelection] ++ List.replicate n Action.addToSelection
  else []

/-- The validity bitmap of one stitch run: coverage of the target
zones, obstacles, boolean combination, clearance erosion. -/
def stitchValid (board : Board) (net_name : String) (ign : List String) (bbox : Box) :
    Bitmap :=
  apply_clearance
    (validBase (rasterize_zones_by_layer (targetZones board net_name) bbox RESOLUTION)
      (rasterize_obstacles board net_name bbox RESOLUTION ign))
    CLEARANCE RESOLUTION

/-- The candidate count a stitch run computes before the commit step. -/
def stitchCount (board : Board) (net_name : String) (grid_x grid_y : ℚ) (stagger : Bool)
    (ign : List String) : ℕ :=
  match board.nets.find? fun n => n == net_name with
  | none => 0
  | some _ =>
    if (targetZones board net_name).isEmpty then 0
    else
      match overallBbox (targetZones board net_name) with
      | none => 0
      | some bbox =>
        (gridCandidates (stitchValid board net_name ign bbox) bbox (clampGrid grid_x)
          (clampGrid grid_y) stagger).length

/-- The stitching orchestrator.  Returns the via count and the list of
board mutating calls issued.  commitRaises selects the run in which the
board collaborator rejects the via creation commit. -/
def stitch (board : Board) (net_name : String) (via_diameter via_drill grid_x grid_y : ℚ)
    (stagger : Bool) (ignored_zone_ids : List String) (refill_after : Bool)
    (commitRaises : Bool) : ℕ × List Action :=
  match board.nets.find? fun n => n == net_name with
  | none => (0, [])
  | some _ =>
    let zones := targetZones board net_name
    if zones.isEmpty then (0, [])
    else
      match overallBbox zones with
      | none => (0, [])
      | some bbox =>
        let vb := stitchValid board net_name ignored_zone_ids bbox
        let n := (gridCandidates vb bbox (clampGrid grid_x) (clampGrid grid_y) stagger).length
        (n, commitActions n commitRaises ++ if refill_after then [Action.refillZones] else [])

/- Specification side definitions, worded from the claims, for the
   refinement comparisons. -/

/-- The largest copper layer dimension of a pad, over the layers that
carry a size; none when the pad has no size data at all. -/
def padLargestDim (p : Pad) : Option ℤ :=
  match p.copperSizes with
  | none => none
  | some sizes =>
    match sizes.filterMap fun s => s.map fun sz => max sz.1 sz.2 with
    | [] => none
    | d :: ds => some (ds.foldl max d)

/-- The pad stamp radius as the claim words it: half of the largest
copper layer footprint dimension found, or the fixed 0.5 mm default
radius when no size data is available (in pixels, the truncated
quotient d / (2 resolution)). -/
def padRadiusPxSpec (p : Pad) (res : ℤ) : ℤ :=
  match padLargestDim p with
  | none => Int.tdiv 1000000 (2 * res)
  | some d => Int.tdiv d (2 * res)

/-- The pad stamp radius under the amended claim: the 1 mm default also
acts as a lower bound on the footprint dimension. -/
def padRadiusPxAmended (p : Pad) (res : ℤ) : ℤ :=
  match padLargestDim p with
  | none => Int.tdiv 1000000 (2 * res)
  | some d => Int.tdiv (max 1000000 d) (2 * res)

/-- Scanline row intersections as the claim words them: an edge from
(x1,y1) to (x2,y2) crosses row y iff min(y1,y2) <= y < max(y1,y2),
horizontal edges are skipped, the intersection is found by linear
interpolation. -/
def rowXsSpec (points : List (ℤ × ℤ)) (y : ℤ) : List ℤ :=
  (edges points).filterMap fun e =>
    if e.1.2 ≠ e.2.2 ∧ min e.1.2 e.2.2 ≤ y ∧ y < max e.1.2 e.2.2 then
      some (interX e.1.1 e.1.2 e.2.1 e.2.2 y)
    else none

/-- Row coverage multiplicity as the claim words it: the number of
inclusive spans between consecutive even/odd indexed pairs of the
ascending intersections that contain column x. -/
def rowHitsSpec (points : List (ℤ × ℤ)) (y x : ℤ) : ℕ :=
  (spanPairs (sortInts (rowXsSpec points y))).countP fun s => decide (s.1 ≤ x ∧ x ≤ s.2)

/- Helper definitions for the obstacle accumulation analysis. -/

/-- The span multiplicity one polygon adds at cell (y, x) of a bitmap
of width w. -/
def polyHits (nodes : List (ℤ × ℤ)) (bbox : Box) (res : ℤ) (w : ℕ) (y x : ℕ) : ℕ :=
  if nodes.length < 3 then 0 else rowHits (polyPoints nodes bbox res) w (y : ℤ) x

/-- The total multiplicity a list of polygons adds at cell (y, x). -/
def totalHits (polys : List (List (ℤ × ℤ))) (bbox : Box) (res : ℤ) (w : ℕ) (y x : ℕ) : ℕ :=
  match polys with
  | [] => 0
  | nodes :: ps => polyHits nodes bbox res w y x + totalHits ps bbox res w y x

/-- No cell of the obstacle uint8 accumulator overflows for the given
ignore set: base stamp plus zone multiplicities stay at most 255. -/
def obstacleRoom (board : Board) (net_name : String) (bbox : Box) (res : ℤ)
    (ign : List String) : Prop :=
  ∀ y, y < bmH bbox res → ∀ x, x < bmW bbox res →
    (obstacleBase board net_name bbox res).data y x
      + (totalHits (zonePolys board net_name ign) bbox res (bmW bbox res) y x : ℤ) ≤ 255

instance obstacleRoomDec (board : Board) (net_name : String) (bbox : Box) (res : ℤ)
    (ign : List String) : Decidable (obstacleRoom board net_name bbox res ign) := by
  unfold obstacleRoom
  infer_instance

/-- The overflow freedom condition at the bounding box a stitch run
derives; trivially true when the run never reaches rasterization. -/
def obstacleRoomRun (board : Board) (net_name : String) (ign : List String) : Prop :=
  match overallBbox (targetZones board net_name) with
  | none => True
  | some bbox => obstacleRoom board net_name bbox RESOLUTION ign

instance obstacleRoomRunDec (board : Board) (net_name : String) (ign : List String) :
    Decidable (obstacleRoomRun board net_name ign) := by
  unfold obstacleRoomRun
  cases overallBbox (targetZones board net_name) <;> infer_instance

/-- The board with every zone of the given id removed. -/
def removeZone (board : Board) (zid : String) : Board :=
  { board with zones := board.zones.filter fun z => !(z.id == zid) }

/- Concrete boards used by the closed counterexamples and witnesses. -/

/-- A 10 mm by 10 mm square outline in board units. -/
def sqPoly : Poly := ⟨[(0, 0), (1000000, 0), (1000000, 1000000), (0, 1000000)], []⟩

/-- A target zone filled with the square on two layers. -/
def zoneTarget : Zone :=
  ⟨"z0", some "N", true, [0, 1], [(0, [sqPoly]), (1, [sqPoly])], ⟨(0, 0), (1000000, 1000000)⟩⟩

/-- A minimal board: one net, one two-layer target zone, no obstacles. -/
def boardPlain : Board := ⟨["N"], [], [], [], [zoneTarget]⟩

/-- A foreign zone holding 255 copies of the square on one layer. -/
def zoneFor255 : Zone :=
  ⟨"a", some "M", true, [0], [(0, List.replicate 255 sqPoly)], ⟨(0, 0), (1000000, 1000000)⟩⟩

/-- A foreign zone holding one copy of the square. -/
def zoneFor1 : Zone :=
  ⟨"b", some "M", true, [0], [(0, [sqPoly])], ⟨(0, 0), (1000000, 1000000)⟩⟩

/-- The uint8 wrap board: the two foreign zones together stamp every
covered obstacle cell exactly 256 times. -/
def boardWrap : Board := ⟨["N"], [], [], [], [zoneTarget, zoneFor255, zoneFor1]⟩

/-- The board used by the C5 witness: one foreign zone only. -/
def boardOneFor : Board := ⟨["N"], [], [], [], [zoneTarget, zoneFor1]⟩

/-- A pad whose largest copper layer dimension, 0.8 mm, is below the
1 mm default. -/
def padSmall : Pad := ⟨none, (500000, 500000), some [some (800000, 600000)]⟩

/-- A board holding only that pad. -/
def boardPad : Board := ⟨["N"], [padSmall], [], [], []⟩

/-- The bounding box shared by the concrete examples. -/
def boxEx : Box := ⟨(0, 0), (1000000, 1000000)⟩

/-- The all-ones 3 by 3 bitmap of the erosion counterexample. -/
def bmOnes3 : Bitmap := ⟨3, 3, fun _ _ => 1⟩

/-- A filled zone with no net that spans two layers. -/
def zoneNoNet : Zone :=
  ⟨"zn", none, true, [0, 1], [(0, [sqPoly]), (1, [sqPoly])], ⟨(0, 0), (1000000, 1000000)⟩⟩

/-- The rational one half, built so that its numerator and denominator
reduce in the kernel: the 0.5 mm grid spacing of the examples. -/
def halfMm : ℚ := ⟨1, 2, by decide, by decide⟩

/- General lemmas. -/

theorem truncQ_of_nonneg {q : ℚ} (h : 0 ≤ q) : truncQ q = ⌊q⌋ := by
  unfold truncQ
  rw [Int.tdiv_eq_ediv (Rat.num_nonneg.2 h) (Int.natCast_nonneg q.den)]
  exact Rat.floor_def.symm

theorem truncQ_neg (q : ℚ) : truncQ (-q) = -truncQ q := by
  unfold truncQ
  rw [Rat.num_neg_eq_neg_num, Rat.den_neg_eq_den, Int.neg_tdiv]

theorem truncQ_of_nonpos {q : ℚ} (h : q ≤ 0) : truncQ q = ⌈q⌉ := by
  have h2 : 0 ≤ -q := neg_nonneg.2 h
  have h3 := truncQ_of_nonneg h2
  rw [truncQ_neg, Int.floor_neg] at h3
  omega

theorem tdiv_eq_truncQ_nonneg (n d : ℤ) (hn : 0 ≤ n) (hd : 0 < d) :
    Int.tdiv n d = truncQ ((n : ℚ) / (d : ℚ)) := by
  have hq : 0 ≤ (n : ℚ) / (d : ℚ) := by
    apply div_nonneg
    · exact_mod_cast hn
    · exact_mod_cast hd.le
  rw [truncQ_of_nonneg hq]
  have hcast : ((d.toNat : ℕ) : ℚ) = ((d : ℤ) : ℚ) := by
    exact_mod_cast congrArg (fun z : ℤ => (z : ℚ)) (Int.toNat_of_nonneg hd.le)
  rw [← hcast, Rat.floor_intCast_div_natCast, Int.tdiv_eq_ediv hn hd.le]
  congr 1
  omega

theorem tdiv_eq_truncQ_pos (n d : ℤ) (hd : 0 < d) :
    Int.tdiv n d = truncQ ((n : ℚ) / (d : ℚ)) := by
  by_cases hn : 0 ≤ n
  · exact tdiv_eq_truncQ_nonneg n d hn hd
  · push_neg at hn
    have h1 : Int.tdiv n d = -(Int.tdiv (-n) d) := by
      rw [Int.neg_tdiv]
      ring
    have h2 : truncQ ((n : ℚ) / (d : ℚ)) = -truncQ (((-n : ℤ) : ℚ) / (d : ℚ)) := by
      have he : (((-n : ℤ) : ℚ) / (d : ℚ)) = -((n : ℚ) / (d : ℚ)) := by
        push_cast
        ring
      rw [he, truncQ_neg]
      ring
    rw [h1, h2, tdiv_eq_truncQ_nonneg (-n) d (by omega) hd]

theorem tdiv_eq_truncQ (n d : ℤ) (hd : d ≠ 0) :
    Int.tdiv n d = truncQ ((n : ℚ) / (d : ℚ)) := by
  rcases hd.lt_or_lt with h | h
  · have h1 : Int.tdiv n d = Int.tdiv (-n) (-d) := by
      rw [Int.tdiv_neg, Int.neg_tdiv]
      ring
    have h2 : ((n : ℚ) / (d : ℚ)) = (((-n : ℤ) : ℚ) / ((-d : ℤ) : ℚ)) := by
      push_cast
      rw [neg_div_neg_eq]
    rw [h1, h2, tdiv_eq_truncQ_pos (-n) (-d) (by omega)]
  · exact tdiv_eq_truncQ_pos n d h

/-- The integer form of the scanline intersection agrees with the
truncated exact linear interpolation of the source expression. -/
theorem interX_eq_interp (x1 y1 x2 y2 y : ℤ) (h : y1 ≠ y2) :
    interX x1 y1 x2 y2 y =
      truncQ ((x1 : ℚ) + ((y : ℚ) - (y1 : ℚ)) * ((x2 : ℚ) - (x1 : ℚ)) / ((y2 : ℚ) - (y1 : ℚ))) := by
  unfold interX
  rw [tdiv_eq_truncQ _ _ (by omega)]
  congr 1
  have hd : ((y2 : ℚ) - (y1 : ℚ)) ≠ 0 := by
    intro hc
    apply h
    have h2 : (y1 : ℚ) = (y2 : ℚ) := by linarith
    exact_mod_cast h2
  push_cast
  field_simp

theorem resolveGrid_eq (g : ℚ) : resolveGrid g = truncQ (g * 1000000) := by
  unfold resolveGrid
  rw [tdiv_eq_truncQ_pos _ _ (by exact_mod_cast g.den_pos)]
  congr 1
  calc ((g.num * 1000000 : ℤ) : ℚ) / ((g.den : ℤ) : ℚ)
      = ((g.num : ℚ) / ((g.den : ℕ) : ℚ)) * 1000000 := by
        push_cast
        ring
    _ = g * 1000000 := by rw [Rat.num_div_den]

theorem whileLeAux_mem {last step : ℤ} (hstep : 0 < step) :
    ∀ (f : ℕ) (v0 : ℤ), (last + 1 - v0).toNat ≤ f →
      ∀ z, z ∈ whileLeAux last step f v0 ↔ ∃ k : ℕ, z = v0 + k * step ∧ z ≤ last := by
  intro f
  induction f with
  | zero =>
    intro v0 hf z
    simp only [whileLeAux, List.not_mem_nil, false_iff]
    rintro ⟨k, rfl, hle⟩
    have hk : 0 ≤ (k : ℤ) * step := mul_nonneg (Int.natCast_nonneg k) hstep.le
    omega
  | succ f ih =>
    intro v0 hf z
    by_cases hv : v0 ≤ last
    · simp only [whileLeAux, if_pos hv, List.mem_cons]
      constructor
      · rintro (rfl | hz)
        · exact ⟨0, by simp, hv⟩
        · obtain ⟨k, rfl, hle⟩ := (ih (v0 + step) (by omega) z).1 hz
          exact ⟨k + 1, by push_cast; ring, hle⟩
      · rintro ⟨k, rfl, hle⟩
        cases k with
        | zero => left; simp
        | succ k =>
          right
          refine (ih (v0 + step) (by omega) _).2 ⟨k, by push_cast; ring, hle⟩
    · simp only [whileLeAux, if_neg hv, List.not_mem_nil, false_iff]
      rintro ⟨k, rfl, hle⟩
      have hk : 0 ≤ (k : ℤ) * step := mul_nonneg (Int.natCast_nonneg k) hstep.le
      omega

theorem whileLe_mem {v0 last step : ℤ} (hstep : 0 < step) (z : ℤ) :
    z ∈ whileLe v0 last step ↔ ∃ k : ℕ, z = v0 + k * step ∧ z ≤ last :=
  whileLeAux_mem hstep _ v0 le_rfl z

/- Claim C7: pixel mapping of vertices. -/

/-- C7 counterexample: the claim says the pixel coordinate of a vertex
is floor((v - origin) / resolution) in each axis, including vertices
left of or above the bounding box origin.  At v = -150000, origin = 0,
resolution = 100000 the source computes int(-1.5) = -1, while the floor
is -2, so the claim is false as stated. -/
theorem C7_counterexample :
    pixOf (-150000) 0 100000 = -1 ∧
      ⌊((((-150000 : ℤ) - 0 : ℤ) : ℚ) / ((100000 : ℤ) : ℚ))⌋ = -2 := by
  constructor
  · decide
  · norm_num

/-- C7 (amended): the pixel coordinate of a vertex is the truncation
toward zero of (v - origin) / resolution, which agrees with the floor
exactly when the vertex is not left of (respectively above) the origin;
for a vertex strictly left of or above the origin it is the ceiling. -/
theorem C7_pixel_map (v o res : ℤ) (hres : 0 < res) :
    (o ≤ v → pixOf v o res = ⌊(((v - o : ℤ) : ℚ) / ((res : ℤ) : ℚ))⌋) ∧
    (v < o → pixOf v o res = ⌈(((v - o : ℤ) : ℚ) / ((res : ℤ) : ℚ))⌉) := by
  have hx : pixOf v o res = truncQ (((v - o : ℤ) : ℚ) / ((res : ℤ) : ℚ)) :=
    tdiv_eq_truncQ_pos (v - o) res hres
  constructor
  · intro h
    rw [hx]
    apply truncQ_of_nonneg
    apply div_nonneg
    · exact_mod_cast sub_nonneg.2 h
    · exact_mod_cast hres.le
  · intro h
    rw [hx]
    apply truncQ_of_nonpos
    apply div_nonpos_of_nonpos_of_nonneg
    · exact_mod_cast sub_nonpos.2 h.le
    · exact_mod_cast hres.le

/-- C7 witness: the amended theorem applied at concrete vertices on
both sides of the origin. -/
theorem C7_pixel_map_witness :
    pixOf 300000 0 100000 = ⌊((((300000 : ℤ) - 0 : ℤ) : ℚ) / ((100000 : ℤ) : ℚ))⌋ ∧
      pixOf (-150000) 0 100000 = ⌈((((-150000 : ℤ) - 0 : ℤ) : ℚ) / ((100000 : ℤ) : ℚ))⌉ :=
  ⟨(C7_pixel_map 300000 0 100000 (by norm_num)).1 (by norm_num),
    (C7_pixel_map (-150000) 0 100000 (by norm_num)).2 (by norm_num)⟩

/- Claim C3: grid spacing clamp and loop termination. -/

/-- C3: the resolved grid spacing is always positive; when the supplied
spacing resolves to a non-positive step it is clamped to exactly one
length unit of the millimetre input scale (SCALE board units); and with
the clamped step every sampling loop visits exactly the finitely many
lattice points up to the bound, i.e. the loop exits by its condition. -/
theorem C3_grid_clamp (g : ℚ) :
    0 < clampGrid g ∧
    (truncQ (g * 1000000) ≤ 0 → clampGrid g = SCALE) ∧
    (∀ v0 last z : ℤ, z ∈ whileLe v0 last (clampGrid g) ↔
      ∃ k : ℕ, z = v0 + k * clampGrid g ∧ z ≤ last) := by
  have hpos : 0 < clampGrid g := by
    unfold clampGrid
    split
    · norm_num
    · omega
  refine ⟨hpos, fun hg => ?_, fun v0 last z => whileLe_mem hpos z⟩
  unfold clampGrid SCALE
  rw [if_pos (by rw [resolveGrid_eq]; exact hg)]

/-- C3 witness: a spacing of -2 mm resolves to -2000000 and is clamped
to SCALE; the characterization instantiated on a concrete loop. -/
theorem C3_grid_clamp_witness :
    0 < clampGrid (-2) ∧ clampGrid (-2) = SCALE ∧
      ((500000 : ℤ) ∈ whileLe 0 1000000 (clampGrid (-2)) ↔
        ∃ k : ℕ, (500000 : ℤ) = 0 + k * clampGrid (-2) ∧ (500000 : ℤ) ≤ 1000000) :=
  ⟨(C3_grid_clamp (-2)).1,
    (C3_grid_clamp (-2)).2.1 (by rw [← resolveGrid_eq]; decide),
    (C3_grid_clamp (-2)).2.2 0 1000000 500000⟩

/- Claim C4: clearance erosion. -/

theorem cellOk_iff (b : Bitmap) (ny nx : ℤ) :
    cellOk b ny nx = true ↔
      0 ≤ ny ∧ ny < (b.height : ℤ) ∧ 0 ≤ nx ∧ nx < (b.width : ℤ) ∧
        b.data ny.toNat nx.toNat ≠ 0 := by
  unfold cellOk
  simp only [Bool.and_eq_true, decide_eq_true_eq]
  tauto

theorem erodeBm_ne_iff (b : Bitmap) (k : ℕ) (y x : ℕ) :
    (erodeBm b k).data y x ≠ 0 ↔
      y < b.height ∧ x < b.width ∧
        ∀ dy, dy < 2 * k + 1 → ∀ dx, dx < 2 * k + 1 →
          cellOk b ((y : ℤ) + (dy : ℤ) - (k : ℤ)) ((x : ℤ) + (dx : ℤ) - (k : ℤ)) = true := by
  unfold erodeBm
  dsimp only
  split
  · rename_i h
    obtain ⟨h1, h2, h3⟩ := h
    simp only [ne_eq, one_ne_zero, not_false_iff, true_iff]
    refine ⟨h1, h2, fun dy hdy dx hdx => ?_⟩
    have h4 := List.all_eq_true.1 h3 dy (List.mem_range.2 hdy)
    exact List.all_eq_true.1 h4 dx (List.mem_range.2 hdx)
  · rename_i h
    simp only [ne_eq, not_true_eq_false, false_iff, not_and]
    intro h1 h2 h3
    apply h
    refine ⟨h1, h2, ?_⟩
    rw [List.all_eq_true]
    intro dy hdy
    rw [List.all_eq_true]
    intro dx hdx
    exact h3 dy (List.mem_range.1 hdy) dx (List.mem_range.1 hdx)

/-- C4 counterexample: on the all-ones 3 by 3 bitmap with
clearance_px = 1, the centre pixel is retained while the corner pixel
was valid in the input and is removed, and their Chebyshev distance is
1, i.e. within clearance_px.  This refutes the claim that no retained
pixel lies within Chebyshev distance k of a removed pixel. -/
theorem C4_counterexample :
    Int.tdiv 1 1 = 1 ∧
    (apply_clearance bmOnes3 1 1).data 1 1 ≠ 0 ∧
    bmOnes3.data 0 0 ≠ 0 ∧
    (apply_clearance bmOnes3 1 1).data 0 0 = 0 ∧
    max |(1 : ℤ) - 0| |(1 : ℤ) - 0| ≤ Int.tdiv 1 1 := by
  decide

/-- C4 (amended): erosion with clearance_px below 1 returns the input
unchanged; for clearance_px = k at least 1, every retained pixel was
valid in the input (the output is a subset of the input), and no
retained pixel lies within Chebyshev distance k of an invalid input
pixel or of the bitmap border — but a retained pixel can lie within
distance k of a pixel removed by the erosion itself. -/
theorem C4_clearance (b : Bitmap) (cnm res : ℤ) :
    (Int.tdiv cnm res < 1 → apply_clearance b cnm res = b) ∧
    (1 ≤ Int.tdiv cnm res →
      ∀ y x : ℕ, (apply_clearance b cnm res).data y x ≠ 0 →
        b.data y x ≠ 0 ∧
        ∀ ny nx : ℤ, |ny - (y : ℤ)| ≤ Int.tdiv cnm res →
          |nx - (x : ℤ)| ≤ Int.tdiv cnm res →
          0 ≤ ny ∧ ny < (b.height : ℤ) ∧ 0 ≤ nx ∧ nx < (b.width : ℤ) ∧
            b.data ny.toNat nx.toNat ≠ 0) := by
  constructor
  · intro h
    unfold apply_clearance
    rw [if_pos h]
  · intro hk y x hne
    have hap : apply_clearance b cnm res = erodeBm b (Int.tdiv cnm res).toNat := by
      unfold apply_clearance
      rw [if_neg (by omega)]
    rw [hap] at hne
    obtain ⟨hy, hx, hall⟩ := (erodeBm_ne_iff b _ y x).1 hne
    have hcenter := hall (Int.tdiv cnm res).toNat (by omega) (Int.tdiv cnm res).toNat (by omega)
    rw [cellOk_iff] at hcenter
    obtain ⟨c1, c2, c3, c4, c5⟩ := hcenter
    constructor
    · have he1 : ((y : ℤ) + ((Int.tdiv cnm res).toNat : ℤ) - ((Int.tdiv cnm res).toNat : ℤ)).toNat = y := by
        omega
      have he2 : ((x : ℤ) + ((Int.tdiv cnm res).toNat : ℤ) - ((Int.tdiv cnm res).toNat : ℤ)).toNat = x := by
        omega
      rw [he1, he2] at c5
      exact c5
    · intro ny nx h1 h2
      rw [abs_le] at h1 h2
      have hd := hall (ny - (y : ℤ) + Int.tdiv cnm res).toNat (by omega)
        (nx - (x : ℤ) + Int.tdiv cnm res).toNat (by omega)
      rw [cellOk_iff] at hd
      have he1 : (y : ℤ) + (((ny - (y : ℤ) + Int.tdiv cnm res).toNat : ℕ) : ℤ)
          - (((Int.tdiv cnm res).toNat : ℕ) : ℤ) = ny := by omega
      have he2 : (x : ℤ) + (((nx - (x : ℤ) + Int.tdiv cnm res).toNat : ℕ) : ℤ)
          - (((Int.tdiv cnm res).toNat : ℕ) : ℤ) = nx := by omega
      rw [he1, he2] at hd
      exact hd

/-- C4 witness: the amended theorem applied to concrete bitmaps, with
clearance_px = 0 (identity) and clearance_px = 1 (retained centre,
checked against the concrete neighbour (0, 0)). -/
theorem C4_clearance_witness :
    apply_clearance bmOnes3 0 1 = bmOnes3 ∧
    bmOnes3.data 1 1 ≠ 0 ∧
    (0 ≤ (0 : ℤ) ∧ (0 : ℤ) < (bmOnes3.height : ℤ) ∧ 0 ≤ (0 : ℤ) ∧
      (0 : ℤ) < (bmOnes3.width : ℤ) ∧ bmOnes3.data (0 : ℤ).toNat (0 : ℤ).toNat ≠ 0) :=
  ⟨(C4_clearance bmOnes3 0 1).1 (by decide),
    ((C4_clearance bmOnes3 1 1).2 (by decide) 1 1 (by decide)).1,
    ((C4_clearance bmOnes3 1 1).2 (by decide) 1 1 (by decide)).2 0 0 (by decide) (by decide)⟩

/- Claim C2: pad stamp radius. -/

theorem padFold_eq (sizes : List (Option (ℤ × ℤ))) :
    ∀ r : ℤ,
      sizes.foldl
        (fun r s =>
          match s with
          | some sz => if max sz.1 sz.2 > r then max sz.1 sz.2 else r
          | none => r)
        r
      = (sizes.filterMap fun s => s.map fun sz => max sz.1 sz.2).foldl max r := by
  induction sizes with
  | nil => intro r; rfl
  | cons s rest ih =>
    intro r
    cases s with
    | none => simpa using ih r
    | some sz =>
      simp only [List.foldl_cons, List.filterMap_cons, Option.map_some]
      have hstep : (if max sz.1 sz.2 > r then max sz.1 sz.2 else r) = max r (max sz.1 sz.2) := by
        split <;> omega
      rw [hstep]
      exact ih (max r (max sz.1 sz.2))

theorem foldl_max_pull (ds : List ℤ) :
    ∀ a b : ℤ, ds.foldl max (max a b) = max a (ds.foldl max b) := by
  induction ds with
  | nil => intro a b; rfl
  | cons c rest ih =>
    intro a b
    simp only [List.foldl_cons, max_assoc]
    exact ih a (max b c)

/-- C2 counterexample: a pad whose largest copper layer dimension is
0.8 mm.  The claim says the stamp radius is half of the largest
dimension found (0.4 mm, 4 pixels at the 0.1 mm resolution); the source
keeps the 1 mm default because 0.8 mm does not exceed it, stamps radius
5, and in particular marks the cell 5 pixels right of the pad centre,
outside the claimed circle of radius 4. -/
theorem C2_counterexample :
    padRadiusPx padSmall 100000 = 5 ∧
    padRadiusPxSpec padSmall 100000 = 4 ∧
    (rasterize_obstacles boardPad "N" boxEx 100000 []).data 5 10 = 1 := by
  decide

/-- C2 (amended): for every pad not on the target net the obstacle
compositor stamps a filled circle at the pad position whose radius is
half of the larger of the 1 mm default and the largest copper layer
footprint dimension found; when no size data is available the radius is
the 0.5 mm default.  The stamp radius rasterize_obstacles passes to
draw_circle is padRadiusPx, shown equal to that amended description. -/
theorem C2_pad_radius (p : Pad) (res : ℤ) :
    padRadiusPx p res = padRadiusPxAmended p res := by
  unfold padRadiusPx padRadiusPxAmended padRadiusNm padLargestDim
  cases hcs : p.copperSizes with
  | none => rfl
  | some sizes =>
    dsimp only
    rw [padFold_eq]
    cases hf : sizes.filterMap fun s => s.map fun sz => max sz.1 sz.2 with
    | nil => rfl
    | cons d ds =>
      simp only [List.foldl_cons]
      rw [foldl_max_pull]

/- Claim C6: scanline fill refinement. -/

theorem rowXs_eq_spec (points : List (ℤ × ℤ)) (y : ℤ) :
    rowXs points y = rowXsSpec points y := by
  unfold rowXs rowXsSpec
  congr 1
  funext e
  by_cases h1 : e.1.2 = e.2.2
  · rw [if_pos h1, if_neg (by tauto)]
  · rw [if_neg h1]
    by_cases h2 : y < min e.1.2 e.2.2 ∨ max e.1.2 e.2.2 ≤ y
    · rw [if_pos h2, if_neg (by omega)]
    · rw [if_neg h2, if_pos (by omega)]

theorem rowHits_eq_spec (points : List (ℤ × ℤ)) (w : ℕ) (y : ℤ) (x : ℕ) (hx : x < w) :
    rowHits points w y x = rowHitsSpec points y (x : ℤ) := by
  unfold rowHits rowHitsSpec
  rw [rowXs_eq_spec]
  apply List.countP_congr
  intro s hs
  simp only [decide_eq_true_eq]
  omega

/-- C6: refinement of the scanline fill against the claim wording.
For a polygon with at least 3 vertices and any cell (y, x) of the
bitmap, each x intersection is the truncated linear interpolation; an
edge counts as crossing row y iff min(y1,y2) <= y < max(y1,y2), with
horizontal edges skipped; the sorted intersections are paired
even/odd and inclusive spans are filled; every covered cell receives
value once per covering span (the uint8 storage keeps the sum modulo
256), and an uncovered cell is untouched. -/
theorem C6_scanline (b : Bitmap) (nodes : List (ℤ × ℤ)) (bbox : Box) (res value : ℤ)
    (h3 : 3 ≤ nodes.length) (y x : ℕ) (hy : y < b.height) (hx : x < b.width) :
    (∀ x1 y1 x2 y2 : ℤ, y1 ≠ y2 →
      interX x1 y1 x2 y2 (y : ℤ) =
        truncQ ((x1 : ℚ) +
          (((y : ℤ) : ℚ) - (y1 : ℚ)) * ((x2 : ℚ) - (x1 : ℚ)) / ((y2 : ℚ) - (y1 : ℚ)))) ∧
    (0 < rowHitsSpec (polyPoints nodes bbox res) (y : ℤ) (x : ℤ) →
      (rasterize_polygon b nodes bbox res value).data y x =
        (b.data y x +
          value * (rowHitsSpec (polyPoints nodes bbox res) (y : ℤ) (x : ℤ) : ℤ)) % 256) ∧
    (rowHitsSpec (polyPoints nodes bbox res) (y : ℤ) (x : ℤ) = 0 →
      (rasterize_polygon b nodes bbox res value).data y x = b.data y x) := by
  refine ⟨fun x1 y1 x2 y2 h => interX_eq_interp x1 y1 x2 y2 (y : ℤ) h, ?_, ?_⟩
  · intro hpos
    unfold rasterize_polygon
    rw [if_neg (by omega)]
    dsimp only
    rw [rowHits_eq_spec _ _ _ _ hx, if_pos ⟨hy, hpos⟩]
  · intro h0
    unfold rasterize_polygon
    rw [if_neg (by omega)]
    dsimp only
    rw [rowHits_eq_spec _ _ _ _ hx, if_neg (by omega)]

/-- C6 witness: the refinement applied to the concrete square polygon
on an 11 by 11 zero bitmap at cell (3, 4), a covered cell. -/
theorem C6_scanline_witness :
    (rasterize_polygon (zeroBm 11 11) sqPoly.outline boxEx 100000 1).data 3 4 =
      ((zeroBm 11 11).data 3 4 +
        1 * (rowHitsSpec (polyPoints sqPoly.outline boxEx 100000) ((3 : ℕ) : ℤ) ((4 : ℕ) : ℤ) : ℤ)) % 256 :=
  (C6_scanline (zeroBm 11 11) sqPoly.outline boxEx 100000 1 (by decide) 3 4 (by decide)
    (by decide)).2.1 (by decide)

/- Claim C8: lookup failure performs no mutation. -/

/-- C8: a stitch call naming a net that does not exist, or whose net
has no filled zones, returns 0 vias and issues no board mutating call
at all: no creation, no selection, no zone refill. -/
theorem C8_no_mutation (board : Board) (net_name : String) (d dr gx gy : ℚ)
    (st : Bool) (ign : List String) (refill cf : Bool)
    (h : board.nets.find? (fun n => n == net_name) = none ∨
      targetZones board net_name = []) :
    stitch board net_name d dr gx gy st ign refill cf = (0, []) := by
  unfold stitch
  rcases h with h | h
  · rw [h]
  · cases hf : board.nets.find? fun n => n == net_name with
    | none => rfl
    | some nt =>
      have he : (targetZones board net_name).isEmpty = true := by
        rw [h]
        rfl
      simp only [he, if_true]

/-- C8 witness: the theorem applied to the empty board. -/
theorem C8_no_mutation_witness :
    stitch ⟨[], [], [], [], []⟩ "GND" 1 1 1 1 false [] true false = (0, []) :=
  C8_no_mutation ⟨[], [], [], [], []⟩ "GND" 1 1 1 1 false [] true false (Or.inl rfl)

/- Claim C9: silent clipping of the drawing primitives. -/

theorem draw_circle_out (b : Bitmap) (cx cy r : ℤ) (y x : ℕ)
    (h : b.height ≤ y ∨ b.width ≤ x) :
    (draw_circle b cx cy r).data y x = b.data y x := by
  unfold draw_circle
  dsimp only
  rw [if_neg]
  rintro ⟨h1, h2, _⟩
  omega

theorem rowHits_out (points : List (ℤ × ℤ)) (w : ℕ) (y : ℤ) (x : ℕ) (hx : w ≤ x) :
    rowHits points w y x = 0 := by
  unfold rowHits
  rw [List.countP_eq_zero]
  intro s hs
  simp only [decide_eq_true_eq]
  omega

theorem draw_line_shape (b : Bitmap) (x1 y1 x2 y2 wpx : ℤ) :
    (draw_line b x1 y1 x2 y2 wpx).width = b.width ∧
    (draw_line b x1 y1 x2 y2 wpx).height = b.height ∧
    ∀ y x : ℕ, b.height ≤ y ∨ b.width ≤ x →
      (draw_line b x1 y1 x2 y2 wpx).data y x = b.data y x := by
  unfold draw_line
  generalize bresPoints x1 y1 x2 y2 = pts
  induction pts generalizing b with
  | nil => exact ⟨rfl, rfl, fun _ _ _ => rfl⟩
  | cons p rest ih =>
    simp only [List.foldl_cons]
    obtain ⟨hw, hh, hd⟩ := ih (draw_circle b p.1 p.2 (Int.fdiv wpx 2))
    refine ⟨hw, hh, fun y x h => ?_⟩
    rw [hd y x h]
    exact draw_circle_out b p.1 p.2 (Int.fdiv wpx 2) y x h

theorem rasterize_polygon_shape (b : Bitmap) (nodes : List (ℤ × ℤ)) (bbox : Box)
    (res value : ℤ) :
    (rasterize_polygon b nodes bbox res value).width = b.width ∧
    (rasterize_polygon b nodes bbox res value).height = b.height ∧
    ∀ y x : ℕ, b.height ≤ y ∨ b.width ≤ x →
      (rasterize_polygon b nodes bbox res value).data y x = b.data y x := by
  unfold rasterize_polygon
  split
  · exact ⟨rfl, rfl, fun _ _ _ => rfl⟩
  · refine ⟨rfl, rfl, fun y x h => ?_⟩
    dsimp only
    rcases h with h | h
    · rw [if_neg]
      rintro ⟨h1, _⟩
      omega
    · rw [if_neg]
      rintro ⟨h1, hc⟩
      rw [rowHits_out _ _ _ _ h] at hc
      omega

/-- C9: every obstacle drawing primitive (filled circle, thick line,
polygon fill) preserves the bitmap extent and leaves every cell outside
that extent untouched, for arbitrary geometry, including centres,
radii, endpoints and vertices that map outside the bitmap; the
operations are total, so no error is raised. -/
theorem C9_clipping :
    (∀ (b : Bitmap) (cx cy r : ℤ),
      (draw_circle b cx cy r).width = b.width ∧
      (draw_circle b cx cy r).height = b.height ∧
      ∀ y x : ℕ, b.height ≤ y ∨ b.width ≤ x →
        (draw_circle b cx cy r).data y x = b.data y x) ∧
    (∀ (b : Bitmap) (x1 y1 x2 y2 wpx : ℤ),
      (draw_line b x1 y1 x2 y2 wpx).width = b.width ∧
      (draw_line b x1 y1 x2 y2 wpx).height = b.height ∧
      ∀ y x : ℕ, b.height ≤ y ∨ b.width ≤ x →
        (draw_line b x1 y1 x2 y2 wpx).data y x = b.data y x) ∧
    (∀ (b : Bitmap) (nodes : List (ℤ × ℤ)) (bbox : Box) (res value : ℤ),
      (rasterize_polygon b nodes bbox res value).width = b.width ∧
      (rasterize_polygon b nodes bbox res value).height = b.height ∧
      ∀ y x : ℕ, b.height ≤ y ∨ b.width ≤ x →
        (rasterize_polygon b nodes bbox res value).data y x = b.data y x) :=
  ⟨fun b cx cy r => ⟨rfl, rfl, draw_circle_out b cx cy r⟩,
    fun b x1 y1 x2 y2 wpx => draw_line_shape b x1 y1 x2 y2 wpx,
    fun b nodes bbox res value => rasterize_polygon_shape b nodes bbox res value⟩

/-- C9 witness: the clipping theorem applied to concrete out-of-range
geometry over the 3 by 3 bitmap. -/
theorem C9_clipping_witness :
    (draw_circle bmOnes3 0 0 99).width = bmOnes3.width ∧
    (draw_circle bmOnes3 0 0 99).data 5 0 = bmOnes3.data 5 0 ∧
    (draw_line bmOnes3 (-7) (-7) 9 9 5).data 0 7 = bmOnes3.data 0 7 ∧
    (rasterize_polygon bmOnes3 sqPoly.outline boxEx 100000 1).data 7 0 = bmOnes3.data 7 0 :=
  ⟨(C9_clipping.1 bmOnes3 0 0 99).1,
    (C9_clipping.1 bmOnes3 0 0 99).2.2 5 0 (Or.inl (by decide)),
    (C9_clipping.2.1 bmOnes3 (-7) (-7) 9 9 5).2.2 0 7 (Or.inr (by decide)),
    (C9_clipping.2.2 bmOnes3 sqPoly.outline boxEx 100000 1).2.2 7 0 (Or.inl (by decide))⟩

/- Claim C10: zones without a net never contribute to the candidate
   net listing. -/

theorem nwzStep_skip (acc : List (String × List ℤ)) (z : Zone)
    (hz : z.net = none ∨ z.net = some "") : nwzStep acc z = acc := by
  rcases hz with h | h <;> simp [nwzStep, h]

theorem addZoneLayers_keeps_names (acc : List (String × List ℤ)) (name : String)
    (ls : List ℤ) (h : ∀ e ∈ acc, e.1 ≠ "") (hn : name ≠ "") :
    ∀ e ∈ addZoneLayers acc name ls, e.1 ≠ "" := by
  unfold addZoneLayers
  split
  · intro e he
    rw [List.mem_map] at he
    obtain ⟨a, ha, rfl⟩ := he
    split
    · exact h a ha
    · exact h a ha
  · intro e he
    rw [List.mem_append] at he
    rcases he with he | he
    · exact h e he
    · rw [List.mem_singleton] at he
      rw [he]
      exact hn

theorem nwzStep_keeps_names (acc : List (String × List ℤ)) (z : Zone)
    (h : ∀ e ∈ acc, e.1 ≠ "") : ∀ e ∈ nwzStep acc z, e.1 ≠ "" := by
  unfold nwzStep
  split
  · exact h
  · cases hz : z.net with
    | none => exact h
    | some name =>
      dsimp only
      by_cases hname : name = ""
      · rw [if_pos hname]
        exact h
      · rw [if_neg hname]
        exact addZoneLayers_keeps_names acc name z.layers h hname

theorem foldl_nwz_keeps_names (zones : List Zone) :
    ∀ acc, (∀ e ∈ acc, e.1 ≠ "") → ∀ e ∈ zones.foldl nwzStep acc, e.1 ≠ "" := by
  induction zones with
  | nil => intro acc h; exact h
  | cons z rest ih =>
    intro acc h
    rw [List.foldl_cons]
    exact ih (nwzStep acc z) (nwzStep_keeps_names acc z h)

theorem mem_insertSortedStr {a b : String} {l : List String} :
    a ∈ insertSortedStr b l ↔ a = b ∨ a ∈ l := by
  induction l with
  | nil => simp [insertSortedStr]
  | cons c rest ih =>
    unfold insertSortedStr
    split
    · simp [List.mem_cons]
    · simp only [List.mem_cons, ih]
      tauto

theorem mem_sortStrs {a : String} {l : List String} : a ∈ sortStrs l ↔ a ∈ l := by
  induction l with
  | nil => simp [sortStrs]
  | cons c rest ih =>
    unfold sortStrs
    rw [mem_insertSortedStr, List.mem_cons, ih]

/-- C10: a filled zone whose net is missing, or whose net name is the
empty string, never contributes to get_candidate_nets: removing such a
zone from the board leaves the result unchanged, and the empty name is
never among the returned net names, no matter how many layers the
zone spans. -/
theorem C10_netless (nets : List String) (pads : List Pad) (vias : List BoardVia)
    (tracks : List Track) (l1 l2 : List Zone) (z : Zone)
    (hz : z.net = none ∨ z.net = some "") :
    get_candidate_nets ⟨nets, pads, vias, tracks, l1 ++ z :: l2⟩ =
      get_candidate_nets ⟨nets, pads, vias, tracks, l1 ++ l2⟩ ∧
    ∀ b : Board, "" ∉ get_candidate_nets b := by
  constructor
  · unfold get_candidate_nets netsWithZones
    dsimp only
    rw [List.foldl_append, List.foldl_append, List.foldl_cons, nwzStep_skip _ z hz]
  · intro b hmem
    unfold get_candidate_nets at hmem
    rw [mem_sortStrs, List.mem_filterMap] at hmem
    obtain ⟨e, he, hsome⟩ := hmem
    have hne := foldl_nwz_keeps_names b.zones [] (by intro e h; cases h) e he
    apply hne
    by_cases hlen : 1 < e.2.length
    · rw [if_pos hlen] at hsome
      exact Option.some.inj hsome
    · rw [if_neg hlen] at hsome
      cases hsome

/-- C10 witness: the theorem applied to a concrete filled two-layer
zone with no net, and to the concrete plain board. -/
theorem C10_netless_witness :
    get_candidate_nets ⟨[], [], [], [], [] ++ zoneNoNet :: []⟩ =
      get_candidate_nets ⟨[], [], [], [], [] ++ []⟩ ∧
    "" ∉ get_candidate_nets boardPlain :=
  ⟨(C10_netless [] [] [] [] [] [] zoneNoNet (Or.inl rfl)).1,
    (C10_netless [] [] [] [] [] [] zoneNoNet (Or.inl rfl)).2 boardPlain⟩

/- Claim C1: behaviour when the commit step fails. -/

theorem stitch_cases (board : Board) (net_name : String) (d dr gx gy : ℚ)
    (st : Bool) (ign : List String) (refill : Bool) :
    (∀ cf : Bool, stitch board net_name d dr gx gy st ign refill cf = (0, [])) ∨
    (∀ cf : Bool, stitch board net_name d dr gx gy st ign refill cf =
      (stitchCount board net_name gx gy st ign,
        commitActions (stitchCount board net_name gx gy st ign) cf ++
          if refill then [Action.refillZones] else [])) := by
  unfold stitch stitchCount
  cases hf : board.nets.find? fun n => n == net_name with
  | none => left; intro cf; rfl
  | some nt =>
    cases hz : (targetZones board net_name).isEmpty with
    | true =>
      left
      intro cf
      rw [List.isEmpty_iff] at hz
      simp [hz]
    | false =>
      have hne : ¬targetZones board net_name = [] := by
        intro hcon
        rw [hcon] at hz
        cases hz
      cases hbb : overallBbox (targetZones board net_name) with
      | none =>
        left
        intro cf
        simp [hne, hbb]
      | some bbox =>
        right
        intro cf
        simp [hne, hbb]

/-- C1 counterexample: a run on the plain board produces one candidate;
with the commit raising, the returned trace holds only begin_commit,
create_items and the refill — the selection calls are absent, although
the claim asserts that selection still attempts to run after a commit
failure. -/
theorem C1_counterexample :
    0 < (stitch boardPlain "N" 1 1 halfMm halfMm false [] true true).1 ∧
    (stitch boardPlain "N" 1 1 halfMm halfMm false [] true true).2 =
      [Action.beginCommit, Action.createItems 1, Action.refillZones] ∧
    Action.clearSelection ∉ (stitch boardPlain "N" 1 1 halfMm halfMm false [] true true).2 ∧
    Action.addToSelection ∉ (stitch boardPlain "N" 1 1 halfMm halfMm false [] true true).2 := by
  decide

/-- C1 (amended): when candidates were produced and the board's commit
step raises, the failure is caught inside stitch (the call still
returns normally), the zone refill still runs exactly when refill_after
is set, and stitch still returns the candidate count computed before
the commit attempt (the same count as a run whose commit succeeds) —
but the selection of the created items is skipped, because it sits in
the same protected region after the failing commit. -/
theorem C1_commit_failure (board : Board) (net_name : String) (d dr gx gy : ℚ)
    (st : Bool) (ign : List String) (refill : Bool)
    (hn : 0 < (stitch board net_name d dr gx gy st ign refill true).1) :
    (stitch board net_name d dr gx gy st ign refill true).1 =
      (stitch board net_name d dr gx gy st ign refill false).1 ∧
    Action.pushCommit ∉ (stitch board net_name d dr gx gy st ign refill true).2 ∧
    Action.clearSelection ∉ (stitch board net_name d dr gx gy st ign refill true).2 ∧
    Action.addToSelection ∉ (stitch board net_name d dr gx gy st ign refill true).2 ∧
    (Action.refillZones ∈ (stitch board net_name d dr gx gy st ign refill true).2 ↔
      refill = true) := by
  rcases stitch_cases board net_name d dr gx gy st ign refill with h | h
  · rw [h true] at hn
    simp at hn
  · have hcount : 0 < stitchCount board net_name gx gy st ign := by
      rw [h true] at hn
      exact hn
    have hne : stitchCount board net_name gx gy st ign ≠ 0 := by omega
    rw [h true, h false]
    refine ⟨rfl, ?_, ?_, ?_, ?_⟩ <;> simp [commitActions, hne]

/-- C1 witness: the amended theorem applied to the plain board run
that produces one candidate. -/
theorem C1_commit_failure_witness :
    (stitch boardPlain "N" 1 1 halfMm halfMm false [] true true).1 =
      (stitch boardPlain "N" 1 1 halfMm halfMm false [] true false).1 ∧
    Action.pushCommit ∉ (stitch boardPlain "N" 1 1 halfMm halfMm false [] true true).2 ∧
    Action.clearSelection ∉ (stitch boardPlain "N" 1 1 halfMm halfMm false [] true true).2 ∧
    Action.addToSelection ∉ (stitch boardPlain "N" 1 1 halfMm halfMm false [] true true).2 ∧
    (Action.refillZones ∈ (stitch boardPlain "N" 1 1 halfMm halfMm false [] true true).2 ↔
      true = true) :=
  C1_commit_failure boardPlain "N" 1 1 halfMm halfMm false [] true (by decide)

/- Claim C5: ignore set semantics and candidate count monotonicity. -/

theorem raster1_data (b : Bitmap) (nodes : List (ℤ × ℤ)) (bbox : Box) (res : ℤ)
    (y x : ℕ) (hy : y < b.height) (h0 : 0 ≤ b.data y x) (h256 : b.data y x < 256) :
    (rasterize_polygon b nodes bbox res 1).data y x =
      (b.data y x + (polyHits nodes bbox res b.width y x : ℤ)) % 256 := by
  unfold rasterize_polygon polyHits
  split
  · simp only [Nat.cast_zero, add_zero]
    rw [Int.emod_eq_of_lt h0 (by omega)]
  · dsimp only
    by_cases hc : 0 < rowHits (polyPoints nodes bbox res) b.width (y : ℤ) x
    · rw [if_pos ⟨hy, hc⟩]
      ring_nf
    · rw [if_neg (by tauto)]
      have hc0 : rowHits (polyPoints nodes bbox res) b.width (y : ℤ) x = 0 := by omega
      rw [hc0]
      simp only [Nat.cast_zero, add_zero]
      rw [Int.emod_eq_of_lt h0 (by omega)]

theorem raster1_bounds (b : Bitmap) (nodes : List (ℤ × ℤ)) (bbox : Box) (res : ℤ)
    (y x : ℕ) (h0 : 0 ≤ b.data y x) (h256 : b.data y x < 256) :
    0 ≤ (rasterize_polygon b nodes bbox res 1).data y x ∧
      (rasterize_polygon b nodes bbox res 1).data y x < 256 := by
  unfold rasterize_polygon
  split
  · exact ⟨h0, h256⟩
  · dsimp only
    split
    · exact ⟨Int.emod_nonneg _ (by norm_num), Int.emod_lt_of_pos _ (by norm_num)⟩
    · exact ⟨h0, h256⟩

theorem fold_raster_data (bbox : Box) (res : ℤ) (polys : List (List (ℤ × ℤ))) :
    ∀ (b : Bitmap) (y x : ℕ), y < b.height → 0 ≤ b.data y x → b.data y x < 256 →
      (polys.foldl (fun bm nodes => rasterize_polygon bm nodes bbox res 1) b).data y x =
        (b.data y x + (totalHits polys bbox res b.width y x : ℤ)) % 256 := by
  induction polys with
  | nil =>
    intro b y x hy h0 h256
    unfold totalHits
    simp only [List.foldl_nil, Nat.cast_zero, add_zero]
    rw [Int.emod_eq_of_lt h0 (by omega)]
  | cons nodes rest ih =>
    intro b y x hy h0 h256
    rw [List.foldl_cons]
    have hw := (rasterize_polygon_shape b nodes bbox res 1).1
    have hh := (rasterize_polygon_shape b nodes bbox res 1).2.1
    have hb := raster1_bounds b nodes bbox res y x h0 h256
    have hr := ih (rasterize_polygon b nodes bbox res 1) y x (by rw [hh]; exact hy) hb.1 hb.2
    rw [hw] at hr
    rw [hr, raster1_data b nodes bbox res y x hy h0 h256]
    have ht : totalHits (nodes :: rest) bbox res b.width y x =
        polyHits nodes bbox res b.width y x + totalHits rest bbox res b.width y x := rfl
    rw [ht]
    push_cast
    omega

/-- A bitmap of the given extent all of whose cells hold 0 or 1. -/
def goodBase (w h : ℕ) (bm : Bitmap) : Prop :=
  bm.width = w ∧ bm.height = h ∧ ∀ y x : ℕ, 0 ≤ bm.data y x ∧ bm.data y x ≤ 1

theorem foldl_inv {α : Type} (P : Bitmap → Prop) (f : Bitmap → α → Bitmap)
    (hf : ∀ bm a, P bm → P (f bm a)) :
    ∀ (l : List α) (bm : Bitmap), P bm → P (l.foldl f bm) := by
  intro l
  induction l with
  | nil => intro bm h; exact h
  | cons a rest ih =>
    intro bm h
    rw [List.foldl_cons]
    exact ih (f bm a) (hf bm a h)

theorem draw_circle_good {w h : ℕ} (bm : Bitmap) (cx cy r : ℤ)
    (hg : goodBase w h bm) : goodBase w h (draw_circle bm cx cy r) := by
  obtain ⟨h1, h2, h3⟩ := hg
  refine ⟨h1, h2, fun y x => ?_⟩
  unfold draw_circle
  dsimp only
  split
  · omega
  · exact h3 y x

theorem draw_line_good {w h : ℕ} (bm : Bitmap) (x1 y1 x2 y2 wpx : ℤ)
    (hg : goodBase w h bm) : goodBase w h (draw_line bm x1 y1 x2 y2 wpx) := by
  unfold draw_line
  exact foldl_inv (goodBase w h) _
    (fun bm2 p hp => draw_circle_good bm2 p.1 p.2 (Int.fdiv wpx 2) hp) _ bm hg

theorem obstacleBase_good (board : Board) (net_name : String) (bbox : Box) (res : ℤ) :
    goodBase (bmW bbox res) (bmH bbox res) (obstacleBase board net_name bbox res) := by
  unfold obstacleBase
  apply foldl_inv (goodBase (bmW bbox res) (bmH bbox res))
  · intro bm t hp
    split
    · exact hp
    · exact draw_line_good bm _ _ _ _ _ hp
  · apply foldl_inv (goodBase (bmW bbox res) (bmH bbox res))
    · intro bm v hp
      split
      · exact hp
      · exact draw_circle_good bm _ _ _ hp
    · apply foldl_inv (goodBase (bmW bbox res) (bmH bbox res))
      · intro bm p hp
        split
        · exact hp
        · exact draw_circle_good bm _ _ _ hp
      · exact ⟨rfl, rfl, fun y x => by constructor <;> norm_num [zeroBm]⟩

theorem rasterize_obstacles_eq (board : Board) (net_name : String) (bbox : Box)
    (res : ℤ) (ign : List String) (y x : ℕ) (hy : y < bmH bbox res) :
    (rasterize_obstacles board net_name bbox res ign).data y x =
      ((obstacleBase board net_name bbox res).data y x +
        (totalHits (zonePolys board net_name ign) bbox res (bmW bbox res) y x : ℤ)) % 256 := by
  unfold rasterize_obstacles
  have hg := obstacleBase_good board net_name bbox res
  have hr := fold_raster_data bbox res (zonePolys board net_name ign)
    (obstacleBase board net_name bbox res) y x (by rw [hg.2.1]; exact hy)
    (hg.2.2 y x).1 (lt_of_le_of_lt (hg.2.2 y x).2 (by norm_num))
  rw [hr, hg.1]

theorem totalHits_cons (nodes : List (ℤ × ℤ)) (ps : List (List (ℤ × ℤ)))
    (bbox : Box) (res : ℤ) (w y x : ℕ) :
    totalHits (nodes :: ps) bbox res w y x =
      polyHits nodes bbox res w y x + totalHits ps bbox res w y x := rfl

theorem totalHits_sublist {p1 p2 : List (List (ℤ × ℤ))} (h : p1.Sublist p2)
    (bbox : Box) (res : ℤ) (w y x : ℕ) :
    totalHits p1 bbox res w y x ≤ totalHits p2 bbox res w y x := by
  induction h with
  | slnil => exact le_refl _
  | cons a h ih =>
    rw [totalHits_cons]
    omega
  | cons₂ a h ih =>
    rw [totalHits_cons, totalHits_cons]
    omega

theorem sublist_flatMap {α β : Type} {l1 l2 : List α} (f : α → List β)
    (h : l1.Sublist l2) : (l1.flatMap f).Sublist (l2.flatMap f) := by
  induction h with
  | slnil => exact List.Sublist.refl _
  | cons a h ih =>
    rw [List.flatMap_cons]
    exact ih.trans (List.sublist_append_right _ _)
  | cons₂ a h ih =>
    rw [List.flatMap_cons, List.flatMap_cons]
    exact ih.append_left _

theorem obstacleZoneKeep_mono (net_name zid : String) (S : List String) (z : Zone)
    (h : obstacleZoneKeep net_name (zid :: S) z = true) :
    obstacleZoneKeep net_name S z = true := by
  unfold obstacleZoneKeep at *
  simp only [Bool.and_eq_true, Bool.not_eq_true', List.contains_cons] at *
  obtain ⟨⟨h1, h2⟩, h3⟩ := h
  simp only [Bool.or_eq_false_iff] at h3
  exact ⟨⟨h1, h2⟩, h3.2⟩

theorem zonePolys_sublist (board : Board) (net_name zid : String) (S : List String) :
    (zonePolys board net_name (zid :: S)).Sublist (zonePolys board net_name S) := by
  unfold zonePolys
  apply sublist_flatMap
  exact List.monotone_filter_right _ fun z => obstacleZoneKeep_mono net_name zid S z

theorem obstacle_zero_mono (board : Board) (net_name zid : String) (S : List String)
    (bbox : Box) (res : ℤ) (y x : ℕ) (hy : y < bmH bbox res) (hx : x < bmW bbox res)
    (hroom : obstacleRoom board net_name bbox res S)
    (hzero : (rasterize_obstacles board net_name bbox res S).data y x = 0) :
    (rasterize_obstacles board net_name bbox res (zid :: S)).data y x = 0 := by
  have hb := (obstacleBase_good board net_name bbox res).2.2 y x
  have hA := rasterize_obstacles_eq board net_name bbox res (zid :: S) y x hy
  have hB := rasterize_obstacles_eq board net_name bbox res S y x hy
  have hmono : (totalHits (zonePolys board net_name (zid :: S)) bbox res (bmW bbox res) y x : ℤ)
      ≤ (totalHits (zonePolys board net_name S) bbox res (bmW bbox res) y x : ℤ) := by
    exact_mod_cast totalHits_sublist (zonePolys_sublist board net_name zid S) bbox res _ y x
  have hr := hroom y hy x hx
  have hc1 : (0 : ℤ) ≤ (totalHits (zonePolys board net_name (zid :: S)) bbox res (bmW bbox res) y x : ℤ) :=
    Int.natCast_nonneg _
  have hc2 : (0 : ℤ) ≤ (totalHits (zonePolys board net_name S) bbox res (bmW bbox res) y x : ℤ) :=
    Int.natCast_nonneg _
  rw [hB] at hzero
  rw [hA]
  omega

theorem validBase_mono (cov obsA obsB : Bitmap)
    (h : ∀ y x : ℕ, y < cov.height → x < cov.width → obsB.data y x = 0 → obsA.data y x = 0) :
    ∀ y x : ℕ, (validBase cov obsB).data y x ≠ 0 → (validBase cov obsA).data y x ≠ 0 := by
  intro y x hne
  unfold validBase at hne ⊢
  dsimp only at hne ⊢
  by_cases hc : y < cov.height ∧ x < cov.width ∧ 2 ≤ cov.data y x ∧ obsB.data y x = 0
  · obtain ⟨h1, h2, h3, h4⟩ := hc
    rw [if_pos ⟨h1, h2, h3, h y x h1 h2 h4⟩]
    norm_num
  · rw [if_neg hc] at hne
    exact absurd rfl hne

theorem erodeBm_mono {b1 b2 : Bitmap} (hw : b1.width = b2.width)
    (hh : b1.height = b2.height)
    (h : ∀ y x : ℕ, b1.data y x ≠ 0 → b2.data y x ≠ 0) (k : ℕ) :
    ∀ y x : ℕ, (erodeBm b1 k).data y x ≠ 0 → (erodeBm b2 k).data y x ≠ 0 := by
  intro y x hne
  rw [erodeBm_ne_iff] at hne ⊢
  obtain ⟨h1, h2, h3⟩ := hne
  refine ⟨hh ▸ h1, hw ▸ h2, fun dy hdy dx hdx => ?_⟩
  have hc := h3 dy hdy dx hdx
  rw [cellOk_iff] at hc ⊢
  obtain ⟨c1, c2, c3, c4, c5⟩ := hc
  exact ⟨c1, hh ▸ c2, c3, hw ▸ c4, h _ _ c5⟩

theorem apply_clearance_dims (b : Bitmap) (cnm res : ℤ) :
    (apply_clearance b cnm res).width = b.width ∧
      (apply_clearance b cnm res).height = b.height := by
  unfold apply_clearance
  split <;> exact ⟨rfl, rfl⟩

theorem apply_clearance_mono {b1 b2 : Bitmap} (hw : b1.width = b2.width)
    (hh : b1.height = b2.height)
    (h : ∀ y x : ℕ, b1.data y x ≠ 0 → b2.data y x ≠ 0) (cnm res : ℤ) :
    ∀ y x : ℕ, (apply_clearance b1 cnm res).data y x ≠ 0 →
      (apply_clearance b2 cnm res).data y x ≠ 0 := by
  unfold apply_clearance
  split
  · exact h
  · exact erodeBm_mono hw hh h _

theorem validBase_cases (cov obs : Bitmap) (y x : ℕ) :
    (validBase cov obs).data y x = 0 ∨ (validBase cov obs).data y x = 1 := by
  unfold validBase
  dsimp only
  split
  · right; rfl
  · left; rfl

theorem erodeBm_cases (b : Bitmap) (k : ℕ) (y x : ℕ) :
    (erodeBm b k).data y x = 0 ∨ (erodeBm b k).data y x = 1 := by
  unfold erodeBm
  dsimp only
  split
  · right; rfl
  · left; rfl

theorem stitchValid_cases (board : Board) (net_name : String) (ign : List String)
    (bbox : Box) (y x : ℕ) :
    (stitchValid board net_name ign bbox).data y x = 0 ∨
      (stitchValid board net_name ign bbox).data y x = 1 := by
  unfold stitchValid apply_clearance
  split
  · exact validBase_cases _ _ y x
  · exact erodeBm_cases _ _ y x

theorem stitchValid_dims (board : Board) (net_name : String) (ign : List String)
    (bbox : Box) :
    (stitchValid board net_name ign bbox).width = bmW bbox RESOLUTION ∧
      (stitchValid board net_name ign bbox).height = bmH bbox RESOLUTION := by
  unfold stitchValid
  have h := apply_clearance_dims
    (validBase (rasterize_zones_by_layer (targetZones board net_name) bbox RESOLUTION)
      (rasterize_obstacles board net_name bbox RESOLUTION ign)) CLEARANCE RESOLUTION
  exact ⟨h.1, h.2⟩

theorem stitchValid_mono (board : Board) (net_name zid : String) (S : List String)
    (bbox : Box) (hroom : obstacleRoom board net_name bbox RESOLUTION S) :
    ∀ y x : ℕ, (stitchValid board net_name S bbox).data y x ≠ 0 →
      (stitchValid board net_name (zid :: S) bbox).data y x ≠ 0 := by
  unfold stitchValid
  exact @apply_clearance_mono
    (validBase (rasterize_zones_by_layer (targetZones board net_name) bbox RESOLUTION)
      (rasterize_obstacles board net_name bbox RESOLUTION S))
    (validBase (rasterize_zones_by_layer (targetZones board net_name) bbox RESOLUTION)
      (rasterize_obstacles board net_name bbox RESOLUTION (zid :: S)))
    rfl rfl
    (validBase_mono (rasterize_zones_by_layer (targetZones board net_name) bbox RESOLUTION)
      (rasterize_obstacles board net_name bbox RESOLUTION (zid :: S))
      (rasterize_obstacles board net_name bbox RESOLUTION S)
      (fun y x hy hx hzero =>
        obstacle_zero_mono board net_name zid S bbox RESOLUTION y x hy hx hroom hzero))
    CLEARANCE RESOLUTION

theorem gridPointOk_mono {vb1 vb2 : Bitmap} (hw : vb1.width = vb2.width)
    (hh : vb1.height = vb2.height)
    (h : ∀ y x : ℕ, vb1.data y x ≠ 0 → vb2.data y x ≠ 0)
    (hcases : ∀ y x : ℕ, vb2.data y x = 0 ∨ vb2.data y x = 1)
    (bbox : Box) (x y : ℤ) (hok : gridPointOk vb1 bbox x y = true) :
    gridPointOk vb2 bbox x y = true := by
  unfold gridPointOk at hok ⊢
  simp only [Bool.and_eq_true, decide_eq_true_eq] at hok ⊢
  obtain ⟨⟨⟨⟨h1, h2⟩, h3⟩, h4⟩, h5⟩ := hok
  have h6 : vb1.data (pixOf y bbox.pos.2 RESOLUTION).toNat
      (pixOf x bbox.pos.1 RESOLUTION).toNat ≠ 0 := by omega
  have h7 := h _ _ h6
  refine ⟨⟨⟨⟨h1, by omega⟩, h3⟩, by omega⟩, ?_⟩
  rcases hcases (pixOf y bbox.pos.2 RESOLUTION).toNat
    (pixOf x bbox.pos.1 RESOLUTION).toNat with hc | hc
  · exact absurd hc h7
  · rw [hc]
    norm_num

theorem length_filter_mono {α : Type} {p q : α → Bool}
    (h : ∀ a, p a = true → q a = true) :
    ∀ l : List α, (l.filter p).length ≤ (l.filter q).length := by
  intro l
  induction l with
  | nil => exact le_refl _
  | cons a rest ih =>
    by_cases hp : p a = true
    · rw [List.filter_cons_of_pos hp, List.filter_cons_of_pos (h a hp)]
      simpa using ih
    · rw [List.filter_cons_of_neg (by simpa using hp)]
      by_cases hq : q a = true
      · rw [List.filter_cons_of_pos hq]
        exact le_trans ih (by simp)
      · rw [List.filter_cons_of_neg (by simpa using hq)]
        exact ih

theorem length_flatMap_mono {α β : Type} {g1 g2 : α → List β}
    (h : ∀ a, (g1 a).length ≤ (g2 a).length) :
    ∀ l : List α, (l.flatMap g1).length ≤ (l.flatMap g2).length := by
  intro l
  induction l with
  | nil => exact le_refl _
  | cons a rest ih =>
    rw [List.flatMap_cons, List.flatMap_cons, List.length_append, List.length_append]
    exact Nat.add_le_add (h a) ih

theorem gridCandidates_mono {vb1 vb2 : Bitmap} (bbox : Box) (gx gy : ℤ) (st : Bool)
    (hw : vb1.width = vb2.width) (hh : vb1.height = vb2.height)
    (h : ∀ y x : ℕ, vb1.data y x ≠ 0 → vb2.data y x ≠ 0)
    (hcases : ∀ y x : ℕ, vb2.data y x = 0 ∨ vb2.data y x = 1) :
    (gridCandidates vb1 bbox gx gy st).length ≤ (gridCandidates vb2 bbox gx gy st).length := by
  unfold gridCandidates
  apply length_flatMap_mono
  intro rx
  rw [List.length_map, List.length_map]
  apply length_filter_mono
  intro a ha
  exact gridPointOk_mono hw hh h hcases bbox rx.2 a ha

theorem stitch_fst (board : Board) (net_name : String) (d dr gx gy : ℚ) (st : Bool)
    (ign : List String) (refill cf : Bool) :
    (stitch board net_name d dr gx gy st ign refill cf).1 =
      stitchCount board net_name gx gy st ign := by
  unfold stitch stitchCount
  cases hf : board.nets.find? fun n => n == net_name with
  | none => rfl
  | some nt =>
    cases hz : (targetZones board net_name).isEmpty with
    | true =>
      rw [List.isEmpty_iff] at hz
      simp [hz]
    | false =>
      have hne : ¬targetZones board net_name = [] := by
        intro hcon
        rw [hcon] at hz
        cases hz
      cases hbb : overallBbox (targetZones board net_name) with
      | none => simp [hne, hbb]
      | some bbox => simp [hne, hbb]

theorem stitchCount_mono (board : Board) (net_name : String) (gx gy : ℚ) (st : Bool)
    (zid : String) (S : List String) (H : obstacleRoomRun board net_name S) :
    stitchCount board net_name gx gy st S ≤ stitchCount board net_name gx gy st (zid :: S) := by
  unfold stitchCount
  cases hf : board.nets.find? fun n => n == net_name with
  | none => exact le_refl _
  | some nt =>
    cases hz : (targetZones board net_name).isEmpty with
    | true =>
      rw [List.isEmpty_iff] at hz
      simp [hz]
    | false =>
      have hne : ¬targetZones board net_name = [] := by
        intro hcon
        rw [hcon] at hz
        cases hz
      cases hbb : overallBbox (targetZones board net_name) with
      | none => simp [hne, hbb]
      | some bbox =>
        simp only [hne, hbb, if_neg, List.isEmpty_iff]
        have hroom : obstacleRoom board net_name bbox RESOLUTION S := by
          unfold obstacleRoomRun at H
          rw [hbb] at H
          exact H
        apply gridCandidates_mono bbox (clampGrid gx) (clampGrid gy) st
        · exact (stitchValid_dims board net_name S bbox).1.trans
            (stitchValid_dims board net_name (zid :: S) bbox).1.symm
        · exact (stitchValid_dims board net_name S bbox).2.trans
            (stitchValid_dims board net_name (zid :: S) bbox).2.symm
        · exact stitchValid_mono board net_name zid S bbox hroom
        · exact stitchValid_cases board net_name (zid :: S) bbox

theorem zonePolys_remove (board : Board) (net_name zid : String) (S : List String) :
    zonePolys board net_name (zid :: S) = zonePolys (removeZone board zid) net_name S := by
  unfold zonePolys removeZone
  congr 1
  rw [List.filter_filter]
  apply List.filter_congr
  intro z hz
  unfold obstacleZoneKeep
  rw [List.contains_cons]
  cases h1 : decide (z.net = some net_name) <;> cases h2 : z.filled <;>
    cases h3 : z.id == zid <;> cases h4 : S.contains z.id <;> rfl

/-- C5 counterexample: on the wrap board the foreign net holds one zone
with 255 copies of the square and another zone (id "b") with one copy,
so every covered obstacle cell is stamped 256 times and the uint8
accumulator wraps to 0.  Ignoring "b" leaves 255 stamps (a real
obstacle) and the run places no via, while the run that does not
ignore "b" sees a wrapped-to-zero obstacle bitmap and places one via:
the candidate count with the id ignored is smaller, refuting the
claimed monotonicity. -/
theorem C5_counterexample :
    (stitch boardWrap "N" 1 1 halfMm halfMm false ["b"] true false).1 = 0 ∧
    (stitch boardWrap "N" 1 1 halfMm halfMm false [] true false).1 = 1 := by
  constructor
  · decide
  · decide

/-- C5 (amended): placing a foreign zone id in the ignore set removes
exactly that zone's contribution from the obstacle bitmap — the bitmap
equals the one computed on the board with the zone deleted; and for an
otherwise identical pair of stitch runs the candidate count with the id
ignored is at least the count without it, provided no pixel of the
obstacle uint8 accumulator overflows in the run without the extra
ignore (fewer than 256 overlapping obstacle stamps per pixel; with 256
overlapping foreign polygons the wrap can free pixels and reverse the
inequality, see the counterexample). -/
theorem C5_ignore (board : Board) (net_name : String) (d dr gx gy : ℚ) (st : Bool)
    (S : List String) (zid : String) (refill cf : Bool)
    (H : obstacleRoomRun board net_name S) :
    (∀ (bbox : Box) (res : ℤ),
      rasterize_obstacles board net_name bbox res (zid :: S) =
        rasterize_obstacles (removeZone board zid) net_name bbox res S) ∧
    (stitch board net_name d dr gx gy st S refill cf).1 ≤
      (stitch board net_name d dr gx gy st (zid :: S) refill cf).1 := by
  constructor
  · intro bbox res
    unfold rasterize_obstacles
    rw [zonePolys_remove]
    rfl
  · rw [stitch_fst, stitch_fst]
    exact stitchCount_mono board net_name gx gy st zid S H

/-- C5 witness: the amended theorem applied to a board with one foreign
zone, whose obstacle accumulator stays far below the uint8 limit. -/
theorem C5_ignore_witness :
    obstacleRoomRun boardOneFor "N" [] ∧
    (stitch boardOneFor "N" 1 1 halfMm halfMm false [] true false).1 ≤
      (stitch boardOneFor "N" 1 1 halfMm halfMm false ["b"] true false).1 :=
  ⟨by decide,
    (C5_ignore boardOneFor "N" 1 1 halfMm halfMm false [] "b" true false (by decide)).2⟩

end ViaStitch
